import Mathlib

/-!
Shallow embedding of the Qingping TLV codec
(`custom_components/qingping_cgs1/tlv_decoder.py` and `tlv_encoder.py`).

Byte strings are modelled as `List Nat` (each element a byte value, `< 256`
where that matters); a Python slice `a[i:j]` becomes `(a.drop i).take (j - i)`.
Environment-dependent primitives (`datetime`-based timestamp formatting and
`bytes.decode("utf-8")`) are passed to the decoder as function parameters,
so every theorem below holds for an arbitrary choice of those functions.
Python `while` loops are modelled by structural recursion on an explicit
fuel argument; the callers pass enough fuel for the loop to run to its
natural exit, which the proofs verify.
-/

namespace Qingping

/-- Model of `bytes_to_int_little_endian` (tlv_decoder.py lines 11-16):
`val = val | byte_array[i] << (i * 8)` over all indices `i`. -/
def bytes_to_int_little_endian (byte_array : List Nat) : Nat :=
  (List.range byte_array.length).foldl
    (fun val i => val ||| (byte_array.getD i 0) <<< (i * 8)) 0

/-- Mathematical little-endian value (positional sum form), used to state and
prove facts about `bytes_to_int_little_endian`. -/
def leNat : List Nat → Nat
  | [] => 0
  | b :: rest => b + 256 * leNat rest

theorem leNat_nil : leNat [] = 0 := rfl

theorem leNat_cons (b : Nat) (l : List Nat) : leNat (b :: l) = b + 256 * leNat l := rfl

theorem foldl_congr_mem {α β : Type} (l : List α) (f g : β → α → β) (init : β)
    (h : ∀ acc a, a ∈ l → f acc a = g acc a) : l.foldl f init = l.foldl g init := by
  induction l generalizing init with
  | nil => rfl
  | cons x xs ih =>
    simp only [List.foldl_cons]
    rw [h init x (by simp)]
    exact ih _ fun acc a ha => h acc a (by simp [ha])

theorem bytes_to_int_append_byte (l : List Nat) (b : Nat) :
    bytes_to_int_little_endian (l ++ [b]) =
      bytes_to_int_little_endian l ||| b <<< (l.length * 8) := by
  unfold bytes_to_int_little_endian
  have hlen : (l ++ [b]).length = l.length + 1 := by simp
  rw [hlen, List.range_succ, List.foldl_append]
  have h1 : (List.range l.length).foldl
      (fun val i => val ||| ((l ++ [b]).getD i 0) <<< (i * 8)) 0 =
      (List.range l.length).foldl
      (fun val i => val ||| (l.getD i 0) <<< (i * 8)) 0 := by
    apply foldl_congr_mem
    intro acc i hi
    rw [List.mem_range] at hi
    rw [List.getD_append _ _ _ _ hi]
  rw [h1]
  simp only [List.foldl_cons, List.foldl_nil]
  congr 1
  rw [List.getD_append_right _ _ _ _ (le_refl l.length)]
  simp

theorem leNat_append_byte (l : List Nat) (b : Nat) :
    leNat (l ++ [b]) = leNat l + 256 ^ l.length * b := by
  induction l with
  | nil => simp [leNat]
  | cons a l ih =>
    simp only [List.cons_append, leNat_cons, ih, List.length_cons]
    ring

theorem leNat_lt (l : List Nat) (h : ∀ b ∈ l, b < 256) : leNat l < 256 ^ l.length := by
  induction l with
  | nil => simp [leNat]
  | cons a l ih =>
    have ha : a < 256 := h a (by simp)
    have hl : leNat l < 256 ^ l.length := ih fun b hb => h b (by simp [hb])
    simp only [leNat_cons, List.length_cons, pow_succ]
    calc a + 256 * leNat l < 256 + 256 * leNat l := by omega
    _ ≤ 256 * (leNat l + 1) := by ring_nf; omega
    _ ≤ 256 * 256 ^ l.length := by
        have : leNat l + 1 ≤ 256 ^ l.length := hl
        exact Nat.mul_le_mul_left _ this
    _ = 256 ^ l.length * 256 := by ring

theorem two_pow_mul_eight (n : Nat) : (2 : Nat) ^ (n * 8) = 256 ^ n := by
  rw [mul_comm n 8, pow_mul]
  norm_num

theorem bytes_to_int_lt (l : List Nat) (h : ∀ b ∈ l, b < 256) :
    bytes_to_int_little_endian l < 2 ^ (l.length * 8) := by
  induction l using List.reverseRecOn with
  | nil => simp [bytes_to_int_little_endian]
  | append_singleton l b ih =>
    have hb : b < 256 := h b (by simp)
    have hl : bytes_to_int_little_endian l < 2 ^ (l.length * 8) :=
      ih fun x hx => h x (by simp [hx])
    rw [bytes_to_int_append_byte]
    simp only [List.length_append, List.length_singleton]
    apply Nat.or_lt_two_pow
    · calc bytes_to_int_little_endian l < 2 ^ (l.length * 8) := hl
      _ ≤ 2 ^ ((l.length + 1) * 8) := Nat.pow_le_pow_right (by norm_num) (by omega)
    · rw [Nat.shiftLeft_eq]
      calc b * 2 ^ (l.length * 8) < 256 * 2 ^ (l.length * 8) :=
            (Nat.mul_lt_mul_right (Nat.two_pow_pos _)).mpr hb
      _ = 2 ^ (l.length * 8 + 8) := by rw [Nat.pow_add]; ring
      _ ≤ 2 ^ ((l.length + 1) * 8) := Nat.pow_le_pow_right (by norm_num) (by omega)

theorem bytes_to_int_eq_leNat (l : List Nat) (h : ∀ b ∈ l, b < 256) :
    bytes_to_int_little_endian l = leNat l := by
  induction l using List.reverseRecOn with
  | nil => simp [bytes_to_int_little_endian, leNat]
  | append_singleton l b ih =>
    have ihl : bytes_to_int_little_endian l = leNat l :=
      ih fun x hx => h x (by simp [hx])
    have hl : bytes_to_int_little_endian l < 2 ^ (l.length * 8) :=
      bytes_to_int_lt l fun x hx => h x (by simp [hx])
    have hl' : leNat l < 2 ^ (l.length * 8) := ihl ▸ hl
    have key := Nat.mul_add_lt_is_or hl' b
    rw [bytes_to_int_append_byte, leNat_append_byte, ihl, Nat.shiftLeft_eq,
      Nat.lor_comm, mul_comm b, ← key, two_pow_mul_eight]
    ring

theorem bytes_to_int_singleton (v : Nat) : bytes_to_int_little_endian [v] = v := by
  simp [bytes_to_int_little_endian, List.range_succ]

/-- Model of `int_to_bytes_little_endian` (tlv_encoder.py lines 10-12) for the
`signed=False` default used by the frame encoder: Python `int.to_bytes` raises
`OverflowError` when the value does not fit in `length` bytes, modelled as
`none`. -/
def int_to_bytes_little_endian (value length : Nat) : Option (List Nat) :=
  if value < 256 ^ length then
    some ((List.range length).map fun i => value / 256 ^ i % 256)
  else none

/-- The two little-endian bytes of a 16-bit value (used to state encoder
theorems in closed form). -/
def le16 (v : Nat) : List Nat := [v % 256, v / 256 % 256]

theorem leNat_range_map (n : Nat) : ∀ v : Nat,
    leNat ((List.range n).map fun i => v / 256 ^ i % 256) = v % 256 ^ n := by
  induction n with
  | zero => intro v; simp [leNat, Nat.mod_one]
  | succ n ih =>
    intro v
    rw [List.range_succ_eq_map]
    simp only [List.map_cons, List.map_map, leNat_cons, pow_zero, Nat.div_one]
    have hcomp : ((fun i => v / 256 ^ i % 256) ∘ (fun i => i + 1)) =
        fun i => (v / 256) / 256 ^ i % 256 := by
      funext i
      simp only [Function.comp_apply]
      rw [Nat.div_div_eq_div_mul, pow_succ, mul_comm (256 ^ i) 256]
    rw [hcomp, ih (v / 256), pow_succ, mul_comm (256 ^ n) 256, Nat.mod_mul]

theorem int_to_bytes_spec (value length : Nat) (h : value < 256 ^ length) :
    ∃ l, int_to_bytes_little_endian value length = some l ∧
      l.length = length ∧ (∀ b ∈ l, b < 256) ∧ leNat l = value := by
  rw [int_to_bytes_little_endian, if_pos h]
  refine ⟨_, rfl, by simp, ?_, ?_⟩
  · intro b hb
    simp only [List.mem_map] at hb
    obtain ⟨i, _, rfl⟩ := hb
    exact Nat.mod_lt _ (by norm_num)
  · rw [leNat_range_map, Nat.mod_eq_of_lt h]

theorem int_to_bytes_two (v : Nat) (h : v < 65536) :
    int_to_bytes_little_endian v 2 = some (le16 v) := by
  have h' : v < 256 ^ 2 := by norm_num at h ⊢; omega
  simp only [int_to_bytes_little_endian, if_pos h', le16]
  norm_num [List.range_succ]

theorem leNat_le16 (v : Nat) (h : v < 65536) : leNat (le16 v) = v := by
  simp only [le16, leNat_cons, leNat_nil]
  have : v % 256 + 256 * (v / 256 % 256) = v % (256 * 256) := (Nat.mod_mul).symm
  rw [mul_zero, add_zero, this, Nat.mod_eq_of_lt (by omega)]

theorem le16_length (v : Nat) : (le16 v).length = 2 := rfl

theorem le16_bytes (v : Nat) : ∀ b ∈ le16 v, b < 256 := by
  intro b hb
  simp only [le16, List.mem_cons, List.not_mem_nil, or_false] at hb
  rcases hb with rfl | rfl <;> exact Nat.mod_lt _ (by norm_num)

/-- One TLV sub-record as produced by `tlv_unpack`.  The Python code stores the
key as the two-character hex rendering of the tag byte; since that rendering is
injective on bytes, the model stores the tag byte itself. -/
structure SubPack where
  key : Nat
  len : Nat
  payload : List Nat
deriving DecidableEq, Repr

/-- Result of `tlv_unpack` (tlv_decoder.py lines 25-75).  `cmd` is `none` in
the too-short case where the Python dictionary holds `None`. -/
structure UnpackResult where
  cmd : Option Nat
  productId : Nat
  length : Nat
  subPackList : List SubPack
deriving DecidableEq, Repr

/-- Payload walk of `tlv_unpack` (lines 41-68).  The Python `while index <
length` loop becomes structural recursion on `fuel`; a fuel of `length` is
always enough because each iteration advances `index` by at least 3, and when
the fuel hypothesis `length - index ≤ fuel` holds the fuel case coincides with
the loop-exit case.  Returns the final `product_id` (tag 0x38, last
occurrence wins, defaulting to 0) together with the sub-record list. -/
def tlvWalk (payload : List Nat) (length : Nat) :
    Nat → Nat → Nat → Nat × List SubPack
  | 0, _, productId => (productId, [])
  | fuel + 1, index, productId =>
    if index < length then
      if length < index + 3 then (productId, [])
      else
        let key := (payload.drop index).headD 0
        let sub_len := bytes_to_int_little_endian ((payload.drop (index + 1)).take 2)
        if length < index + 3 + sub_len then (productId, [])
        else
          let sub_payload := (payload.drop (index + 3)).take sub_len
          let productId' := if key = 0x38 then sub_payload.headD 0 else productId
          let rest := tlvWalk payload length fuel (index + 3 + sub_len) productId'
          (rest.1, ⟨key, sub_len, sub_payload⟩ :: rest.2)
    else (productId, [])

/-- Model of `tlv_unpack` (tlv_decoder.py lines 25-75). -/
def tlv_unpack (byte_array : List Nat) : UnpackResult :=
  if byte_array.length < 5 then
    { cmd := none, productId := 0, length := 0, subPackList := [] }
  else
    let cmd := (byte_array.drop 2).headD 0
    let length := bytes_to_int_little_endian ((byte_array.drop 3).take 2)
    if byte_array.length < 5 + length then
      { cmd := some cmd, productId := 0, length := length, subPackList := [] }
    else
      let payload := (byte_array.drop 5).take length
      let w := tlvWalk payload length length 0 0
      { cmd := some cmd, productId := w.1, length := length, subPackList := w.2 }

/-- A decoded realtime or history reading (one element of `sensorData`).
Python floats produced by `/ 10` and `/ 100.0` are modelled as exact
rationals; `time` holds the output of the caller-supplied timestamp formatter
standing in for `fmt_timestamp`; `rssi` is present only on realtime
readings. -/
structure Reading where
  dataType : String
  timestamp : Nat
  time : String
  temperature : ℚ
  humidity : ℚ
  pressure : ℚ
  battery : Nat
  rssi : Option Int := none
deriving DecidableEq, Repr

instance : Inhabited Reading := ⟨⟨"", 0, "", 0, 0, 0, 0, none⟩⟩

/-- Field computations of `decode_th_data` (tlv_decoder.py lines 84-98),
factored out of the length guard. -/
def thCore (byte_array : List Nat) : Reading :=
  let th := bytes_to_int_little_endian (byte_array.take 3)
  { dataType := "data"
    timestamp := 0
    time := ""
    temperature := (((th >>> 12 : Nat) : ℚ) - 500) / 10
    humidity := ((th &&& 0xFFF : Nat) : ℚ) / 10
    pressure := ((bytes_to_int_little_endian ((byte_array.drop 3).take 2) : Nat) : ℚ) / 100
    battery := byte_array.getD 5 0 }

/-- Model of `decode_th_data` (tlv_decoder.py lines 78-98); the Python empty
dictionary returned for a short buffer becomes `none`. -/
def decode_th_data (byte_array : List Nat) : Option Reading :=
  if byte_array.length < 6 then none else some (thCore byte_array)

/-- Model of `decode_realtime_data` (tlv_decoder.py lines 101-118).  The inner
`none` branch is unreachable because `byte_array.drop 4` has at least 7 bytes
when the guard passes. -/
def decode_realtime_data (fmt : Nat → String) (byte_array : List Nat)
    (_product_id : Nat) : Option Reading :=
  if byte_array.length < 11 then none
  else
    let timestamp := bytes_to_int_little_endian (byte_array.take 4)
    match decode_th_data (byte_array.drop 4) with
    | none => none
    | some r =>
      let rssi0 := byte_array.getD 10 0
      let rssi : Int := if 128 ≤ rssi0 then (rssi0 : Int) - 256 else (rssi0 : Int)
      some { r with dataType := "event", timestamp := timestamp,
                    time := fmt timestamp, rssi := some rssi }

/-- Block walk of `decode_history_data` (lines 130-144): `while index +
pack_len <= len(byte_array)` with `pack_len = 6`, modelled with fuel (the
caller passes `byte_array.length`, always sufficient).  The inner `none`
branch is unreachable because each `history_pack` has exactly 6 bytes. -/
def historyWalk (fmt : Nat → String) (byte_array : List Nat)
    (timestamp duration : Nat) : Nat → Nat → Nat → List Reading
  | 0, _, _ => []
  | fuel + 1, index, i =>
    if index + 6 ≤ byte_array.length then
      let history_pack := (byte_array.drop index).take 6
      match decode_th_data history_pack with
      | none => []
      | some r =>
        { r with timestamp := timestamp + duration * i, dataType := "data",
                 time := fmt (timestamp + duration * i) }
          :: historyWalk fmt byte_array timestamp duration fuel (index + 6) (i + 1)
    else []

/-- Model of `decode_history_data` (tlv_decoder.py lines 121-146). -/
def decode_history_data (fmt : Nat → String) (byte_array : List Nat)
    (_product_id : Nat) : List Reading :=
  if byte_array.length < 6 then []
  else
    let timestamp := bytes_to_int_little_endian (byte_array.take 4)
    let duration := bytes_to_int_little_endian ((byte_array.drop 4).take 2)
    historyWalk fmt byte_array timestamp duration byte_array.length 6 0

/-- A decoded versioned composite sensor record (tag 0x85): sparse dictionary
modelled with one `Option` per field; `timestamp` is always present when the
record is produced at all. -/
structure SensorDataV2 where
  timestamp : Nat
  temperature : Option ℚ := none
  humidity : Option ℚ := none
  pressure : Option ℚ := none
  co2 : Option Nat := none
  pm25 : Option Nat := none
  pm10 : Option Nat := none
  tvoc : Option Nat := none
  noise : Option Nat := none
  light : Option Nat := none
deriving DecidableEq, Repr

/-- Model of `decode_sensor_data_v2` (tlv_decoder.py lines 149-211). -/
def decode_sensor_data_v2 (byte_array : List Nat) : Option SensorDataV2 :=
  if byte_array.length < 5 then none
  else
    let timestamp := bytes_to_int_little_endian (byte_array.take 4)
    let sensor_type := byte_array.getD 4 0
    if sensor_type = 1 then
      if 9 ≤ byte_array.length then
        some { timestamp := timestamp
               temperature := some (((bytes_to_int_little_endian ((byte_array.drop 5).take 2) : Nat) : ℚ) / 10)
               humidity := some (((bytes_to_int_little_endian ((byte_array.drop 7).take 2) : Nat) : ℚ) / 10) }
      else some { timestamp := timestamp }
    else if sensor_type = 2 then
      if 7 ≤ byte_array.length then
        some { timestamp := timestamp
               temperature := some (((bytes_to_int_little_endian ((byte_array.drop 5).take 2) : Nat) : ℚ) / 10) }
      else some { timestamp := timestamp }
    else if sensor_type = 3 then
      if 11 ≤ byte_array.length then
        some { timestamp := timestamp
               temperature := some (((bytes_to_int_little_endian ((byte_array.drop 5).take 2) : Nat) : ℚ) / 10)
               humidity := some (((bytes_to_int_little_endian ((byte_array.drop 7).take 2) : Nat) : ℚ) / 10)
               pressure := some (((bytes_to_int_little_endian ((byte_array.drop 9).take 2) : Nat) : ℚ) / 100) }
      else some { timestamp := timestamp }
    else if sensor_type = 4 then
      if 11 ≤ byte_array.length then
        some { timestamp := timestamp
               temperature := some (((bytes_to_int_little_endian ((byte_array.drop 5).take 2) : Nat) : ℚ) / 10)
               humidity := some (((bytes_to_int_little_endian ((byte_array.drop 7).take 2) : Nat) : ℚ) / 10)
               co2 := some (bytes_to_int_little_endian ((byte_array.drop 9).take 2)) }
      else some { timestamp := timestamp }
    else if sensor_type = 10 then
      if 23 ≤ byte_array.length then
        some { timestamp := timestamp
               temperature := some (((bytes_to_int_little_endian ((byte_array.drop 5).take 2) : Nat) : ℚ) / 10)
               humidity := some (((bytes_to_int_little_endian ((byte_array.drop 7).take 2) : Nat) : ℚ) / 10)
               co2 := some (bytes_to_int_little_endian ((byte_array.drop 9).take 2))
               pm25 := some (bytes_to_int_little_endian ((byte_array.drop 11).take 2))
               pm10 := some (bytes_to_int_little_endian ((byte_array.drop 13).take 2))
               tvoc := some (bytes_to_int_little_endian ((byte_array.drop 15).take 2))
               noise := some (bytes_to_int_little_endian ((byte_array.drop 17).take 2))
               light := some (bytes_to_int_little_endian ((byte_array.drop 19).take 4)) }
      else some { timestamp := timestamp }
    else some { timestamp := timestamp }

/-- Lower-case hex digit, as used by Python `bytes.hex()`. -/
def hexDigit (n : Nat) : Char :=
  if n < 10 then Char.ofNat (48 + n) else Char.ofNat (87 + n)

/-- Model of Python `bytes.hex()`: two lower-case hex digits per byte. -/
def bytesHex (l : List Nat) : String :=
  String.mk (l.flatMap fun b => [hexDigit (b / 16), hexDigit (b % 16)])

/-- An element of the decoder's `sensorData` list: either a realtime/history
reading or a versioned composite (tag 0x85) record — the Python code mixes
dictionaries of both shapes in one list. -/
inductive SensorDatum
  | reading (r : Reading)
  | v2 (s : SensorDataV2)
deriving DecidableEq, Repr

/-- Decoded-telemetry output of `tlv_decode` (the `out_data` dictionary):
sparse record, one `Option` per key.  Python returns the bare `{}` for a
frame without the CG marker, which is the all-`none` record here.
`signalStrength` is stored as an integer to state sign questions directly. -/
structure OutData where
  productId : Option Nat := none
  sensorData : Option (List SensorDatum) := none
  version : Option String := none
  versionModel : Option String := none
  versionMcu : Option String := none
  reportInterval : Option Nat := none
  collectInterval : Option Nat := none
  deviceStatus : Option Nat := none
  battery : Option Nat := none
  signalStrength : Option Int := none
  usbPluggedIn : Option Bool := none
  batteryCharging : Option Bool := none
  pmModuleConnected : Option Bool := none
  pmModuleSerial : Option String := none
deriving DecidableEq, Repr

/-- State threaded through the dispatch loop of `tlv_decode`: the `out_data`
dictionary and the `data_list` accumulator of tag-0x85 records. -/
structure DecodeState where
  out : OutData
  dataList : List SensorDataV2
deriving DecidableEq, Repr

/-- One iteration of the dispatch loop of `tlv_decode` (tlv_decoder.py lines
226-313), acting on the state `(out_data, data_list)`.  `utf8` stands in for
`bytes.decode("utf-8")`, with `none` modelling `UnicodeDecodeError` (the field
is then skipped, per the `except` arms). -/
def decodeStep (fmt : Nat → String) (utf8 : List Nat → Option String)
    (productId : Nat) (s : DecodeState) (sp : SubPack) : DecodeState :=
  let payload := sp.payload
  if sp.key = 0x14 then
    match decode_realtime_data fmt payload productId with
    | some r =>
      { s with out := { s.out with sensorData := some [SensorDatum.reading r] } }
    | none => s
  else if sp.key = 0x03 then
    let history_data := decode_history_data fmt payload productId
    if history_data.length ≠ 0 then
      { s with out :=
          { s.out with sensorData := some (history_data.map SensorDatum.reading) } }
    else s
  else if sp.key = 0x11 then
    match utf8 payload with
    | some v => { s with out := { s.out with version := some v } }
    | none => s
  else if sp.key = 0x34 then
    match utf8 payload with
    | some v => { s with out := { s.out with versionModel := some v } }
    | none => s
  else if sp.key = 0x35 then
    match utf8 payload with
    | some v => { s with out := { s.out with versionMcu := some v } }
    | none => s
  else if sp.key = 0x04 then
    if 1 ≤ payload.length then
      { s with out :=
          { s.out with reportInterval := some (bytes_to_int_little_endian payload) } }
    else s
  else if sp.key = 0x05 then
    if 1 ≤ payload.length then
      { s with out :=
          { s.out with collectInterval := some (bytes_to_int_little_endian payload) } }
    else s
  else if sp.key = 0x85 then
    match decode_sensor_data_v2 payload with
    | some sd => { s with dataList := s.dataList ++ [sd] }
    | none => s
  else if sp.key = 0x1d then
    if 1 ≤ payload.length then
      { s with out := { s.out with deviceStatus := some (payload.headD 0) } }
    else s
  else if sp.key = 0x64 then
    if 1 ≤ payload.length then
      { s with out := { s.out with battery := some (payload.headD 0) } }
    else s
  else if sp.key = 0x09 then
    if 1 ≤ payload.length then
      { s with out := { s.out with battery := some (payload.headD 0) } }
    else s
  else if sp.key = 0x65 then
    if 1 ≤ payload.length then
      { s with out :=
          { s.out with
            signalStrength := some ((bytes_to_int_little_endian payload : Int)) } }
    else s
  else if sp.key = 0x2c then
    if 1 ≤ payload.length then
      { s with out :=
          { s.out with usbPluggedIn := some (payload.headD 0 = 1),
                       batteryCharging := some (payload.headD 0 = 1) } }
    else s
  else if sp.key = 0x61 then
    if payload.length = 0 then
      { s with out := { s.out with pmModuleConnected := some false } }
    else
      { s with out := { s.out with pmModuleConnected := some true,
                                   pmModuleSerial := some (bytesHex payload) } }
  else s

/-- Model of `tlv_decode` (tlv_decoder.py lines 214-322).  `fmt` models the
`datetime`-based `fmt_timestamp` and `utf8` models `bytes.decode("utf-8")`;
the decode logic is independent of both, so all theorems quantify over them.
The surrounding `try`/`except` never fires in the model: every helper is
total. -/
def tlv_decode (fmt : Nat → String) (utf8 : List Nat → Option String)
    (byte_array : List Nat) : OutData :=
  if byte_array.length < 2 ∨ byte_array.take 2 ≠ [0x43, 0x47] then {}
  else
    let unpack_data := tlv_unpack byte_array
    let init : DecodeState :=
      { out := { productId := some unpack_data.productId }, dataList := [] }
    let final :=
      unpack_data.subPackList.foldl (decodeStep fmt utf8 unpack_data.productId) init
    if 0 < final.dataList.length then
      { final.out with sensorData := some (final.dataList.map SensorDatum.v2) }
    else final.out

/-- Model of `is_tlv_format` (tlv_decoder.py lines 325-328). -/
def is_tlv_format (payload : List Nat) : Bool :=
  2 ≤ payload.length && payload.take 2 = [0x43, 0x47]

/-- Model of `encode_tlv_packet` (tlv_encoder.py lines 15-18); `bytes([key])`
raises `ValueError` unless the key is a byte value, and the two-byte length
field overflows for a value longer than 65535 bytes — both modelled as
`none`. -/
def encode_tlv_packet (key : Nat) (data : List Nat) : Option (List Nat) :=
  if key < 256 then
    (int_to_bytes_little_endian data.length 2).map fun lenBytes =>
      key :: (lenBytes ++ data)
  else none

/-- Model of `calculate_checksum` (tlv_encoder.py lines 21-24): sum of all
bytes, masked to the low 16 bits, as two little-endian bytes. -/
def calculate_checksum (data : List Nat) : Option (List Nat) :=
  int_to_bytes_little_endian (data.sum &&& 0xFFFF) 2

/-- Model of `tlv_encode` (tlv_encoder.py lines 27-53).  The packet dictionary
becomes an ordered association list (Python dictionaries preserve insertion
order); any `OverflowError`/`ValueError` raised while building bytes is
modelled as `none`. -/
def tlv_encode (command : Nat) (packets : List (Nat × List Nat)) :
    Option (List Nat) :=
  match packets.foldlM
      (fun acc kd => (encode_tlv_packet kd.1 kd.2).map (acc ++ ·)) [] with
  | none => none
  | some payload =>
    if command < 256 then
      match int_to_bytes_little_endian payload.length 2 with
      | none => none
      | some lenBytes =>
        let message := [0x43, 0x47] ++ command :: lenBytes ++ payload
        match calculate_checksum message with
        | none => none
        | some checksum => some (message ++ checksum)
    else none

/-- Spec-side description of a decoded history block (claim C5): reading `i`
carries timestamp `ts + dur * i` and `dataType = "data"`, together with the
temperature/humidity/pressure/battery fields of its 6-byte block. -/
def expectedHistory (fmt : Nat → String) (ts dur : Nat) :
    Nat → List (List Nat) → List Reading
  | _, [] => []
  | i, b :: bs =>
    { thCore b with dataType := "data", timestamp := ts + dur * i,
                    time := fmt (ts + dur * i) }
      :: expectedHistory fmt ts dur (i + 1) bs

theorem mem_list3 {b0 b1 b2 : Nat} (h0 : b0 < 256) (h1 : b1 < 256)
    (h2 : b2 < 256) : ∀ x ∈ [b0, b1, b2], x < 256 := by
  intro x hx
  simp only [List.mem_cons, List.not_mem_nil, or_false] at hx
  rcases hx with rfl | rfl | rfl <;> assumption

theorem mem_list2 {b0 b1 : Nat} (h0 : b0 < 256) (h1 : b1 < 256) :
    ∀ x ∈ [b0, b1], x < 256 := by
  intro x hx
  simp only [List.mem_cons, List.not_mem_nil, or_false] at hx
  rcases hx with rfl | rfl <;> assumption

theorem bytes_to_int_two {b0 b1 : Nat} (h0 : b0 < 256) (h1 : b1 < 256) :
    bytes_to_int_little_endian [b0, b1] = b0 + 256 * b1 := by
  rw [bytes_to_int_eq_leNat _ (mem_list2 h0 h1)]
  simp [leNat]

theorem bytes_to_int_three {b0 b1 b2 : Nat} (h0 : b0 < 256) (h1 : b1 < 256)
    (h2 : b2 < 256) :
    bytes_to_int_little_endian [b0, b1, b2] = b0 + 256 * b1 + 65536 * b2 := by
  rw [bytes_to_int_eq_leNat _ (mem_list3 h0 h1 h2)]
  simp [leNat]
  ring

/-- C4: For every 6-byte packed temperature/humidity/pressure/battery block,
letting `th` be the little-endian integer of bytes [0:3), the decoder outputs
temperature `((th >> 12) - 500) / 10` °C, humidity `(th & 0xFFF) / 10` %,
pressure `(little-endian of bytes [3:5)) / 100` kPa, and battery `byte [5]`
(shift and mask expressed as division and remainder by `2^12`). -/
theorem th_block_decodes_packed_fields (b0 b1 b2 b3 b4 b5 : Nat)
    (rest : List Nat) (h0 : b0 < 256) (h1 : b1 < 256) (h2 : b2 < 256)
    (h3 : b3 < 256) (h4 : b4 < 256) :
    decode_th_data (b0 :: b1 :: b2 :: b3 :: b4 :: b5 :: rest) =
      some { dataType := "data", timestamp := 0, time := "",
             temperature :=
               ((((b0 + 256 * b1 + 65536 * b2) / 2 ^ 12 : Nat) : ℚ) - 500) / 10,
             humidity := (((b0 + 256 * b1 + 65536 * b2) % 2 ^ 12 : Nat) : ℚ) / 10,
             pressure := ((b3 + 256 * b4 : Nat) : ℚ) / 100,
             battery := b5, rssi := none } := by
  have hmask : (0xFFF : ℕ) = 2 ^ 12 - 1 := by norm_num
  rw [decode_th_data, if_neg (by simp)]
  have htake : (b0 :: b1 :: b2 :: b3 :: b4 :: b5 :: rest).take 3 = [b0, b1, b2] := rfl
  have hslice : ((b0 :: b1 :: b2 :: b3 :: b4 :: b5 :: rest).drop 3).take 2 = [b3, b4] := rfl
  have hgd : (b0 :: b1 :: b2 :: b3 :: b4 :: b5 :: rest).getD 5 0 = b5 := rfl
  rw [thCore, htake, hslice, hgd, bytes_to_int_three h0 h1 h2,
    bytes_to_int_two h3 h4, Nat.shiftRight_eq_div_pow, hmask,
    Nat.and_pow_two_sub_one_eq_mod]

/-- Witness for C4: the block whose packed `th` value is `0x1F688` together
with pressure bytes for 100.00 kPa and battery byte 88. -/
theorem th_block_decodes_packed_fields_witness :
    decode_th_data [136, 246, 1, 16, 39, 88] =
      some { dataType := "data", timestamp := 0, time := "",
             temperature :=
               ((((136 + 256 * 246 + 65536 * 1) / 2 ^ 12 : Nat) : ℚ) - 500) / 10,
             humidity := (((136 + 256 * 246 + 65536 * 1) % 2 ^ 12 : Nat) : ℚ) / 10,
             pressure := ((16 + 256 * 39 : Nat) : ℚ) / 100,
             battery := 88, rssi := none } :=
  th_block_decodes_packed_fields 136 246 1 16 39 88 [] (by norm_num)
    (by norm_num) (by norm_num) (by norm_num) (by norm_num)

theorem historyWalk_length (fmt : Nat → String) (ba : List Nat)
    (ts dur : Nat) : ∀ fuel index i, ba.length ≤ index + 6 * fuel →
    (historyWalk fmt ba ts dur fuel index i).length = (ba.length - index) / 6 := by
  intro fuel
  induction fuel with
  | zero =>
    intro index i hfuel
    simp only [historyWalk, List.length_nil]
    omega
  | succ fuel ih =>
    intro index i hfuel
    by_cases hle : index + 6 ≤ ba.length
    · have hpack : ((ba.drop index).take 6).length = 6 := by
        simp only [List.length_take, List.length_drop]
        omega
      have hdec : decode_th_data ((ba.drop index).take 6) =
          some (thCore ((ba.drop index).take 6)) := by
        rw [decode_th_data, if_neg (by omega)]
      rw [historyWalk, if_pos hle]
      simp only [hdec, List.length_cons]
      rw [ih (index + 6) (i + 1) (by omega)]
      omega
    · rw [historyWalk, if_neg hle]
      simp only [List.length_nil]
      omega

/-- C10: For every history sub-record value of length `L ≥ 6` the decoder
produces exactly `(L - 6) / 6` readings — trailing bytes after the last
complete 6-byte block are silently dropped — and a value shorter than 6 bytes
yields the empty list. -/
theorem history_reading_count (fmt : Nat → String) (pid : Nat)
    (byte_array : List Nat) :
    (6 ≤ byte_array.length →
      (decode_history_data fmt byte_array pid).length = (byte_array.length - 6) / 6) ∧
    (byte_array.length < 6 → decode_history_data fmt byte_array pid = []) := by
  constructor
  · intro h6
    rw [decode_history_data, if_neg (by omega)]
    exact historyWalk_length fmt byte_array _ _ byte_array.length 6 0 (by omega)
  · intro hlt
    rw [decode_history_data, if_pos hlt]

/-- Witness for C10: a 26-byte value (header, three complete blocks, two
trailing bytes) yields exactly three readings, and a 5-byte value yields
none. -/
theorem history_reading_count_witness :
    (decode_history_data (fun _ => "") [100, 0, 0, 0, 60, 0,
      136, 246, 1, 16, 39, 88, 136, 246, 1, 16, 39, 87,
      136, 246, 1, 16, 39, 86, 9, 9] 0).length = (26 - 6) / 6 ∧
    decode_history_data (fun _ => "") [1, 2, 3, 4, 5] 0 = [] := by
  constructor
  · exact (history_reading_count (fun _ => "") 0 _).1 (by norm_num)
  · exact (history_reading_count (fun _ => "") 0 _).2 (by norm_num)

/-- C3: Frame unpacking is total and tolerates malformation.  A buffer
shorter than 5 bytes yields the explicit empty result; a buffer whose
declared payload length exceeds the available bytes yields a malformed
result with no sub-records; and the payload walk stops immediately —
returning the sub-records parsed so far, here the empty continuation —
whenever fewer than 3 bytes remain before the declared payload length or a
sub-record's declared value would extend past it. -/
theorem unpack_tolerates_malformed :
    (∀ ba : List Nat, ba.length < 5 →
      tlv_unpack ba = { cmd := none, productId := 0, length := 0, subPackList := [] }) ∧
    (∀ ba : List Nat, 5 ≤ ba.length →
      ba.length < 5 + bytes_to_int_little_endian ((ba.drop 3).take 2) →
      tlv_unpack ba =
        { cmd := some ((ba.drop 2).headD 0), productId := 0,
          length := bytes_to_int_little_endian ((ba.drop 3).take 2),
          subPackList := [] }) ∧
    (∀ (payload : List Nat) (length fuel index pid : Nat),
      index < length → length < index + 3 →
      tlvWalk payload length fuel index pid = (pid, [])) ∧
    (∀ (payload : List Nat) (length fuel index pid : Nat),
      index < length → index + 3 ≤ length →
      length < index + 3 +
        bytes_to_int_little_endian ((payload.drop (index + 1)).take 2) →
      tlvWalk payload length fuel index pid = (pid, [])) := by
  refine ⟨?_, ?_, ?_, ?_⟩
  · intro ba h
    rw [tlv_unpack, if_pos h]
  · intro ba h5 hlen
    rw [tlv_unpack, if_neg (by omega)]
    simp only []
    rw [if_pos hlen]
  · intro payload length fuel index pid h1 h2
    cases fuel with
    | zero => rw [tlvWalk]
    | succ fuel => rw [tlvWalk, if_pos h1, if_pos h2]
  · intro payload length fuel index pid h1 h2 h3
    cases fuel with
    | zero => rw [tlvWalk]
    | succ fuel =>
      rw [tlvWalk, if_pos h1, if_neg (by omega)]
      simp only []
      rw [if_pos h3]

/-- Witness for C3: a 3-byte frame, a frame declaring 9 payload bytes with
only 1 available, a walk facing fewer than 3 remaining bytes, and a walk
whose sub-record length 5 overruns the 0 remaining value bytes. -/
theorem unpack_tolerates_malformed_witness :
    tlv_unpack [67, 71, 80] =
      { cmd := none, productId := 0, length := 0, subPackList := [] } ∧
    tlv_unpack [67, 71, 80, 9, 0, 1] =
      { cmd := some 80, productId := 0, length := 9, subPackList := [] } ∧
    tlvWalk [1, 2] 2 5 0 7 = (7, []) ∧
    tlvWalk [64, 5, 0] 3 9 0 4 = (4, []) :=
  ⟨unpack_tolerates_malformed.1 [67, 71, 80] (by norm_num),
   unpack_tolerates_malformed.2.1 [67, 71, 80, 9, 0, 1] (by norm_num) (by decide),
   unpack_tolerates_malformed.2.2.1 [1, 2] 2 5 0 7 (by norm_num) (by norm_num),
   unpack_tolerates_malformed.2.2.2 [64, 5, 0] 3 9 0 4 (by norm_num) (by norm_num)
     (by decide)⟩

theorem bytes_to_int_four {b0 b1 b2 b3 : Nat} (h0 : b0 < 256) (h1 : b1 < 256)
    (h2 : b2 < 256) (h3 : b3 < 256) :
    bytes_to_int_little_endian [b0, b1, b2, b3] =
      b0 + 256 * b1 + 65536 * b2 + 16777216 * b3 := by
  have hmem : ∀ x ∈ [b0, b1, b2, b3], x < 256 := by
    intro x hx
    simp only [List.mem_cons, List.not_mem_nil, or_false] at hx
    rcases hx with rfl | rfl | rfl | rfl <;> assumption
  rw [bytes_to_int_eq_leNat _ hmem]
  simp [leNat]
  ring

/-- C8: A versioned composite sensor block (tag 0x85) of sub-type 10 with at
least 23 bytes populates all eight fields — temperature and humidity (2-byte
little-endian each, divided by 10), co2, pm25, pm10, tvoc, noise (2-byte
little-endian each, raw) and light (4-byte little-endian, raw) — and a block
too short for its sub-type's full layout (9 bytes for sub-type 1, 7 for 2,
11 for 3 and 4, 23 for 10) yields a partial record holding only the
timestamp, never an error. -/
theorem sensor_v2_type10_layout :
    (∀ (b0 b1 b2 b3 b5 b6 b7 b8 b9 b10 b11 b12 b13 b14 b15 b16 b17 b18 b19
        b20 b21 b22 : Nat) (rest : List Nat),
      b5 < 256 → b6 < 256 → b7 < 256 → b8 < 256 → b9 < 256 → b10 < 256 →
      b11 < 256 → b12 < 256 → b13 < 256 → b14 < 256 → b15 < 256 → b16 < 256 →
      b17 < 256 → b18 < 256 → b19 < 256 → b20 < 256 → b21 < 256 → b22 < 256 →
      decode_sensor_data_v2 (b0 :: b1 :: b2 :: b3 :: 10 :: b5 :: b6 :: b7 ::
          b8 :: b9 :: b10 :: b11 :: b12 :: b13 :: b14 :: b15 :: b16 :: b17 ::
          b18 :: b19 :: b20 :: b21 :: b22 :: rest) =
        some { timestamp := bytes_to_int_little_endian [b0, b1, b2, b3],
               temperature := some (((b5 + 256 * b6 : Nat) : ℚ) / 10),
               humidity := some (((b7 + 256 * b8 : Nat) : ℚ) / 10),
               pressure := none,
               co2 := some (b9 + 256 * b10),
               pm25 := some (b11 + 256 * b12),
               pm10 := some (b13 + 256 * b14),
               tvoc := some (b15 + 256 * b16),
               noise := some (b17 + 256 * b18),
               light := some (b19 + 256 * b20 + 65536 * b21 + 16777216 * b22) }) ∧
    (∀ v : List Nat, 5 ≤ v.length →
      (v.getD 4 0 = 1 ∧ v.length < 9) ∨ (v.getD 4 0 = 2 ∧ v.length < 7) ∨
        (v.getD 4 0 = 3 ∧ v.length < 11) ∨ (v.getD 4 0 = 4 ∧ v.length < 11) ∨
        (v.getD 4 0 = 10 ∧ v.length < 23) →
      decode_sensor_data_v2 v =
        some { timestamp := bytes_to_int_little_endian (v.take 4) }) := by
  constructor
  · intro b0 b1 b2 b3 b5 b6 b7 b8 b9 b10 b11 b12 b13 b14 b15 b16 b17 b18 b19
      b20 b21 b22 rest h5 h6 h7 h8 h9 h10 h11 h12 h13 h14 h15 h16 h17 h18 h19
      h20 h21 h22
    have hlen : (b0 :: b1 :: b2 :: b3 :: 10 :: b5 :: b6 :: b7 :: b8 :: b9 ::
        b10 :: b11 :: b12 :: b13 :: b14 :: b15 :: b16 :: b17 :: b18 :: b19 ::
        b20 :: b21 :: b22 :: rest).length = rest.length + 23 := by
      simp
    have hg : (b0 :: b1 :: b2 :: b3 :: 10 :: b5 :: b6 :: b7 :: b8 :: b9 ::
        b10 :: b11 :: b12 :: b13 :: b14 :: b15 :: b16 :: b17 :: b18 :: b19 ::
        b20 :: b21 :: b22 :: rest).getD 4 0 = 10 := rfl
    rw [decode_sensor_data_v2, if_neg (by omega)]
    simp only [hg, hlen]
    norm_num
    simp [bytes_to_int_two h5 h6, bytes_to_int_two h7 h8,
      bytes_to_int_two h9 h10, bytes_to_int_two h11 h12,
      bytes_to_int_two h13 h14, bytes_to_int_two h15 h16,
      bytes_to_int_two h17 h18, bytes_to_int_four h19 h20 h21 h22]
  · intro v hv5 hshort
    rw [decode_sensor_data_v2, if_neg (by omega)]
    rcases hshort with ⟨hg, hlen⟩ | ⟨hg, hlen⟩ | ⟨hg, hlen⟩ | ⟨hg, hlen⟩ |
      ⟨hg, hlen⟩
    · simp only [hg]
      simp [show ¬ 9 ≤ v.length from by omega]
    · simp only [hg]
      simp [show ¬ 7 ≤ v.length from by omega]
    · simp only [hg]
      simp [show ¬ 11 ≤ v.length from by omega]
    · simp only [hg]
      simp [show ¬ 11 ≤ v.length from by omega]
    · simp only [hg]
      simp [show ¬ 23 ≤ v.length from by omega]

/-- Witness for C8: a full 23-byte type-10 block decoding every field, a
6-byte type-10 block and a 9-byte type-3 block (11-byte layout) each decoding
to a timestamp-only record. -/
theorem sensor_v2_type10_layout_witness :
    decode_sensor_data_v2 [1, 0, 0, 0, 10, 255, 0, 244, 1, 144, 1, 10, 0, 12,
        0, 100, 0, 55, 0, 1, 2, 3, 4] =
      some { timestamp := bytes_to_int_little_endian [1, 0, 0, 0],
             temperature := some (((255 + 256 * 0 : Nat) : ℚ) / 10),
             humidity := some (((244 + 256 * 1 : Nat) : ℚ) / 10),
             pressure := none,
             co2 := some (144 + 256 * 1),
             pm25 := some (10 + 256 * 0),
             pm10 := some (12 + 256 * 0),
             tvoc := some (100 + 256 * 0),
             noise := some (55 + 256 * 0),
             light := some (1 + 256 * 2 + 65536 * 3 + 16777216 * 4) } ∧
    decode_sensor_data_v2 [1, 0, 0, 0, 10, 5] =
      some { timestamp :=
        bytes_to_int_little_endian ([1, 0, 0, 0, 10, 5].take 4) } ∧
    decode_sensor_data_v2 [1, 0, 0, 0, 3, 5, 0, 244, 1] =
      some { timestamp :=
        bytes_to_int_little_endian ([1, 0, 0, 0, 3, 5, 0, 244, 1].take 4) } :=
  ⟨sensor_v2_type10_layout.1 1 0 0 0 255 0 244 1 144 1 10 0 12 0 100 0 55 0 1
      2 3 4 [] (by norm_num) (by norm_num) (by norm_num) (by norm_num)
      (by norm_num) (by norm_num) (by norm_num) (by norm_num) (by norm_num)
      (by norm_num) (by norm_num) (by norm_num) (by norm_num) (by norm_num)
      (by norm_num) (by norm_num) (by norm_num) (by norm_num),
   sensor_v2_type10_layout.2 [1, 0, 0, 0, 10, 5] (by norm_num) (by decide),
   sensor_v2_type10_layout.2 [1, 0, 0, 0, 3, 5, 0, 244, 1] (by norm_num)
      (by decide)⟩

/-- Spec-side closed form of one encoded sub-record:
`tag || length as u16-LE || value`. -/
def encodedPacket (kv : Nat × List Nat) : List Nat :=
  kv.1 :: (le16 kv.2.length ++ kv.2)

/-- Spec-side closed form of the encoder's payload: the concatenation of the
encoded sub-records in caller-supplied order. -/
def encPackets (ps : List (Nat × List Nat)) : List Nat :=
  (ps.map encodedPacket).flatten

theorem encPackets_nil : encPackets [] = [] := rfl

theorem encPackets_cons (kv : Nat × List Nat) (ps : List (Nat × List Nat)) :
    encPackets (kv :: ps) = kv.1 :: (le16 kv.2.length ++ (kv.2 ++ encPackets ps)) := by
  simp [encPackets, encodedPacket]

theorem encode_tlv_packet_none_of_long (key : Nat) (data : List Nat)
    (h : 65535 < data.length) : encode_tlv_packet key data = none := by
  rw [encode_tlv_packet]
  by_cases hk : key < 256
  · rw [if_pos hk, int_to_bytes_little_endian, if_neg (by norm_num; omega)]
    rfl
  · rw [if_neg hk]

theorem encode_fold_none (packets : List (Nat × List Nat))
    (kv : Nat × List Nat) (hmem : kv ∈ packets) (hlen : 65535 < kv.2.length) :
    ∀ acc : List Nat,
      packets.foldlM
        (fun acc kd => (encode_tlv_packet kd.1 kd.2).map (acc ++ ·)) acc = none := by
  induction packets with
  | nil => simp at hmem
  | cons p ps ih =>
    intro acc
    rw [List.foldlM_cons]
    rcases List.mem_cons.mp hmem with rfl | hmem'
    · rw [encode_tlv_packet_none_of_long _ _ hlen]
      rfl
    · cases hp : encode_tlv_packet p.1 p.2 with
      | none => rfl
      | some enc =>
        simp only [hp, Option.map_some', Option.some_bind]
        exact ih hmem' _

/-- C7: For every sub-record map in which some tag's value is longer than
65535 bytes, encoding fails hard (`none`, modelling the uncaught Python
`OverflowError` from the two-byte length field), never silently
truncating. -/
theorem encode_overlong_value_fails (command : Nat)
    (packets : List (Nat × List Nat))
    (h : ∃ kv ∈ packets, 65535 < kv.2.length) :
    tlv_encode command packets = none := by
  obtain ⟨kv, hmem, hlen⟩ := h
  rw [tlv_encode, encode_fold_none packets kv hmem hlen []]

/-- Witness for C7: a single 65536-byte value makes the encoder fail. -/
theorem encode_overlong_value_fails_witness :
    tlv_encode 2 [(1, List.replicate 65536 0)] = none :=
  encode_overlong_value_fails 2 [(1, List.replicate 65536 0)]
    ⟨(1, List.replicate 65536 0), List.mem_singleton.mpr rfl, by
      show 65535 < (List.replicate 65536 (0 : Nat)).length
      rw [List.length_replicate]
      norm_num⟩

theorem encode_fold_some (ps : List (Nat × List Nat))
    (h : ∀ kv ∈ ps, kv.1 < 256 ∧ kv.2.length ≤ 65535) :
    ∀ acc : List Nat,
      ps.foldlM
        (fun acc kd => (encode_tlv_packet kd.1 kd.2).map (acc ++ ·)) acc =
        some (acc ++ encPackets ps) := by
  induction ps with
  | nil => intro acc; simp [encPackets]
  | cons p ps ih =>
    intro acc
    obtain ⟨hk, hl⟩ := h p (by simp)
    rw [List.foldlM_cons, encode_tlv_packet, if_pos hk,
      int_to_bytes_two _ (by omega)]
    simp only [Option.map_some', Option.bind_eq_bind, Option.some_bind]
    rw [ih (fun kv hkv => h kv (by simp [hkv])) _]
    rw [encPackets_cons]
    simp [List.append_assoc]

theorem encode_fold_some_inv (ps : List (Nat × List Nat)) :
    ∀ (acc out : List Nat),
      ps.foldlM
        (fun acc kd => (encode_tlv_packet kd.1 kd.2).map (acc ++ ·)) acc =
        some out →
      ∀ kv ∈ ps, kv.1 < 256 ∧ kv.2.length ≤ 65535 := by
  induction ps with
  | nil => intro acc out _ kv hkv; simp at hkv
  | cons p ps ih =>
    intro acc out hfold kv hkv
    rw [List.foldlM_cons] at hfold
    cases hp : encode_tlv_packet p.1 p.2 with
    | none => rw [hp] at hfold; simp at hfold
    | some enc =>
      rw [hp] at hfold
      simp only [Option.map_some', Option.some_bind] at hfold
      have hcond : p.1 < 256 ∧ p.2.length ≤ 65535 := by
        rw [encode_tlv_packet] at hp
        by_cases hk : p.1 < 256
        · refine ⟨hk, ?_⟩
          rw [if_pos hk, int_to_bytes_little_endian] at hp
          by_cases hv : p.2.length < 256 ^ 2
          · norm_num at hv; omega
          · rw [if_neg hv] at hp; simp at hp
        · rw [if_neg hk] at hp; simp at hp
      rcases List.mem_cons.mp hkv with rfl | hmem'
      · exact hcond
      · exact ih _ _ hfold kv hmem'

theorem and_ffff_eq_mod (n : Nat) : n &&& 0xFFFF = n % 65536 := by
  have h := Nat.and_pow_two_sub_one_eq_mod n 16
  norm_num at h
  exact h

/-- C6: For every command byte and sub-record map (within representable
sizes), the encoder's output is exactly `"CG" || command || payload-length as
u16-LE || payload` — each sub-record emitted in caller-supplied order as
`tag || value-length as u16-LE || value` — followed by the two little-endian
bytes of the sum of all preceding bytes modulo 65536. -/
theorem encode_produces_framed_output (command : Nat)
    (packets : List (Nat × List Nat)) (hcmd : command < 256)
    (hpk : ∀ kv ∈ packets, kv.1 < 256 ∧ kv.2.length ≤ 65535)
    (hP : (encPackets packets).length ≤ 65535) :
    tlv_encode command packets =
      some (([0x43, 0x47] ++ command :: le16 (encPackets packets).length ++
          encPackets packets) ++
        le16 (([0x43, 0x47] ++ command :: le16 (encPackets packets).length ++
          encPackets packets).sum % 65536)) := by
  rw [tlv_encode, encode_fold_some packets hpk []]
  simp only [List.nil_append]
  rw [if_pos hcmd, int_to_bytes_two _ (by omega)]
  simp only []
  rw [calculate_checksum, and_ffff_eq_mod,
    int_to_bytes_two _ (Nat.mod_lt _ (by norm_num))]

/-- Witness for C6: the known vector `encode(0x32, {0x41: bytes([1])})`. -/
theorem encode_produces_framed_output_witness :
    tlv_encode 50 [(65, [1])] =
      some (([0x43, 0x47] ++ 50 :: le16 (encPackets [(65, [1])]).length ++
          encPackets [(65, [1])]) ++
        le16 (([0x43, 0x47] ++ 50 :: le16 (encPackets [(65, [1])]).length ++
          encPackets [(65, [1])]).sum % 65536)) :=
  encode_produces_framed_output 50 [(65, [1])] (by norm_num)
    (by intro kv hkv; rw [List.mem_singleton] at hkv; subst hkv; exact ⟨by norm_num, by norm_num⟩)
    (by norm_num [encPackets, encodedPacket, le16])

theorem tlvWalk_encPackets :
    ∀ (ps : List (Nat × List Nat)) (payload : List Nat) (index pid fuel : Nat),
      payload.drop index = encPackets ps →
      index ≤ payload.length →
      (∀ kv ∈ ps, kv.1 < 256 ∧ kv.2.length ≤ 65535) →
      payload.length - index ≤ fuel →
      (tlvWalk payload payload.length fuel index pid).2 =
        ps.map fun kv => ⟨kv.1, kv.2.length, kv.2⟩ := by
  intro ps
  induction ps with
  | nil =>
    intro payload index pid fuel hdrop hle _ _
    have hix : payload.length ≤ index := by
      have := congrArg List.length hdrop
      simp only [List.length_drop, encPackets_nil, List.length_nil] at this
      omega
    cases fuel with
    | zero => rw [tlvWalk]; rfl
    | succ fuel =>
      rw [tlvWalk, if_neg (by omega)]
      rfl
  | cons kv ps ih =>
    intro payload index pid fuel hdrop hle hwf hfuel
    obtain ⟨hk, hl⟩ := hwf kv (by simp)
    rw [encPackets_cons] at hdrop
    have hlendrop : payload.length - index =
        3 + kv.2.length + (encPackets ps).length := by
      have := congrArg List.length hdrop
      simp only [List.length_drop, List.length_cons, List.length_append,
        le16_length] at this
      omega
    have hix : index < payload.length := by omega
    have hd1 : payload.drop (index + 1) = le16 kv.2.length ++ (kv.2 ++ encPackets ps) := by
      have : payload.drop (index + 1) = (payload.drop index).drop 1 := by
        rw [List.drop_drop]
      rw [this, hdrop]
      rfl
    have hsub : bytes_to_int_little_endian ((payload.drop (index + 1)).take 2) =
        kv.2.length := by
      rw [hd1, List.take_left' (le16_length _),
        bytes_to_int_eq_leNat _ (le16_bytes _), leNat_le16 _ (by omega)]
    have hd3 : payload.drop (index + 3) = kv.2 ++ encPackets ps := by
      have h31 : payload.drop (index + 3) = (payload.drop (index + 1)).drop 2 := by
        rw [List.drop_drop]
      rw [h31, hd1, List.drop_left' (le16_length _)]
    have hpay : (payload.drop (index + 3)).take kv.2.length = kv.2 := by
      rw [hd3, List.take_left]
    cases fuel with
    | zero => omega
    | succ fuel =>
      rw [tlvWalk, if_pos hix, if_neg (by omega)]
      simp only [hsub, hdrop, List.headD_cons, hpay]
      rw [if_neg (by omega)]
      simp only [List.map_cons, List.cons.injEq, true_and, and_true]
      exact ih payload (index + 3 + kv.2.length) _ fuel
        (by rw [show index + 3 + kv.2.length = (index + 3) + kv.2.length from rfl,
              ← List.drop_drop, hd3, List.drop_left])
        (by omega) (fun q hq => hwf q (by simp [hq])) (by omega)

theorem tlv_unpack_frame_shape (cmdB : Nat) (payload extra : List Nat)
    (hP : payload.length ≤ 65535) :
    tlv_unpack (67 :: 71 :: cmdB :: (le16 payload.length ++ (payload ++ extra))) =
      { cmd := some cmdB,
        productId := (tlvWalk payload payload.length payload.length 0 0).1,
        length := payload.length,
        subPackList := (tlvWalk payload payload.length payload.length 0 0).2 } := by
  have hF : (67 :: 71 :: cmdB ::
      (le16 payload.length ++ (payload ++ extra))).length =
      5 + payload.length + extra.length := by
    simp [le16]
    omega
  have hlenfield : bytes_to_int_little_endian
      (((67 :: 71 :: cmdB :: (le16 payload.length ++ (payload ++ extra))).drop 3).take 2) =
      payload.length := by
    show bytes_to_int_little_endian
      ((le16 payload.length ++ (payload ++ extra)).take 2) = _
    rw [List.take_left' (le16_length _),
      bytes_to_int_eq_leNat _ (le16_bytes _), leNat_le16 _ (by omega)]
  have hslice : ((67 :: 71 :: cmdB ::
      (le16 payload.length ++ (payload ++ extra))).drop 5).take payload.length =
      payload := by
    show ((le16 payload.length ++ (payload ++ extra)).drop 2).take payload.length = _
    rw [List.drop_left' (le16_length _), List.take_left' rfl]
  rw [tlv_unpack, if_neg (by rw [hF]; omega)]
  simp only []
  rw [hlenfield, if_neg (by rw [hF]; omega), hslice]
  rfl

/-- C2: For every command byte and ordered sub-record map, unpacking the
frame produced by the encoder recovers the same command byte and the same
ordered sequence of tag–value pairs (the trailing checksum bytes are beyond
the declared payload length and are never read back).  The claim's side
conditions — one-byte tags and values of at most 65535 bytes — hold for any
successfully produced frame. -/
theorem unpack_encode_roundtrip (command : Nat)
    (packets : List (Nat × List Nat)) (frame : List Nat)
    (h : tlv_encode command packets = some frame) :
    (tlv_unpack frame).cmd = some command ∧
    (tlv_unpack frame).subPackList.map (fun sp => (sp.key, sp.payload)) =
      packets := by
  cases hfold : packets.foldlM
      (fun acc kd => (encode_tlv_packet kd.1 kd.2).map (acc ++ ·)) [] with
  | none =>
    have hnone : tlv_encode command packets = none := by rw [tlv_encode, hfold]
    rw [hnone] at h
    simp at h
  | some payload =>
    have hpk := encode_fold_some_inv packets [] payload hfold
    have hpayeq : payload = encPackets packets := by
      have h2 := encode_fold_some packets hpk []
      rw [hfold] at h2
      simpa using h2
    by_cases hcmd : command < 256
    case neg =>
      have hnone : tlv_encode command packets = none := by
        rw [tlv_encode, hfold]
        simp only []
        rw [if_neg hcmd]
      rw [hnone] at h
      simp at h
    by_cases hplen : payload.length ≤ 65535
    case neg =>
      have hnone : tlv_encode command packets = none := by
        rw [tlv_encode, hfold]
        simp only []
        rw [if_pos hcmd, int_to_bytes_little_endian,
          if_neg (by norm_num; omega)]
      rw [hnone] at h
      simp at h
    have hP : (encPackets packets).length ≤ 65535 := by
      rw [← hpayeq]
      exact hplen
    rw [encode_produces_framed_output command packets hcmd hpk hP] at h
    have hframe := Option.some.inj h
    rw [← hframe, ← hpayeq]
    have hshape : ([0x43, 0x47] ++ command :: le16 payload.length ++ payload) ++
        le16 (([0x43, 0x47] ++ command :: le16 payload.length ++ payload).sum % 65536) =
        67 :: 71 :: command :: (le16 payload.length ++ (payload ++
          le16 (([0x43, 0x47] ++ command :: le16 payload.length ++ payload).sum % 65536))) := by
      simp [List.append_assoc]
    rw [hshape, tlv_unpack_frame_shape command payload _ hplen]
    refine ⟨rfl, ?_⟩
    rw [tlvWalk_encPackets packets payload 0 0 payload.length
      (by simpa using hpayeq) (by omega) hpk (by omega)]
    simp [List.map_map, Function.comp_def]

/-- Witness for C2: the frame for command `0x32` with the single sub-record
`{0x40: bytes([1])}` round-trips. -/
theorem unpack_encode_roundtrip_witness :
    (tlv_unpack [67, 71, 50, 4, 0, 64, 1, 0, 1, 2, 1]).cmd = some 50 ∧
    (tlv_unpack [67, 71, 50, 4, 0, 64, 1, 0, 1, 2, 1]).subPackList.map
      (fun sp => (sp.key, sp.payload)) = [(64, [1])] :=
  unpack_encode_roundtrip 50 [(64, [1])] [67, 71, 50, 4, 0, 64, 1, 0, 1, 2, 1]
    (by decide)

theorem historyWalk_blocks (fmt : Nat → String) (ts dur : Nat) :
    ∀ (bs : List (List Nat)) (ba : List Nat) (index i fuel : Nat),
      ba.drop index = bs.flatten →
      (∀ b ∈ bs, b.length = 6) →
      ba.length ≤ index + 6 * fuel →
      historyWalk fmt ba ts dur fuel index i = expectedHistory fmt ts dur i bs := by
  intro bs
  induction bs with
  | nil =>
    intro ba index i fuel hdrop _ _
    have hix : ba.length ≤ index := by
      have := congrArg List.length hdrop
      simp only [List.length_drop, List.flatten_nil, List.length_nil] at this
      omega
    cases fuel with
    | zero => rw [historyWalk, expectedHistory]
    | succ fuel =>
      rw [historyWalk, if_neg (by omega), expectedHistory]
  | cons b bs ih =>
    intro ba index i fuel hdrop hb hfuel
    have hb6 : b.length = 6 := hb b (by simp)
    have hdrop' : ba.drop index = b ++ bs.flatten := by
      rw [hdrop, List.flatten_cons]
    have hlen : ba.length - index = 6 + bs.flatten.length := by
      have := congrArg List.length hdrop'
      simp only [List.length_drop, List.length_append, hb6] at this
      omega
    have hle : index + 6 ≤ ba.length := by omega
    have hpack : (ba.drop index).take 6 = b := by
      rw [hdrop', List.take_left' hb6]
    have hdec : decode_th_data ((ba.drop index).take 6) = some (thCore b) := by
      rw [hpack, decode_th_data, if_neg (by omega)]
    cases fuel with
    | zero => omega
    | succ fuel =>
      rw [historyWalk, if_pos hle]
      simp only [hdec]
      rw [expectedHistory]
      congr 1
      apply ih
      · rw [show index + 6 = index + b.length from by rw [hb6], ← List.drop_drop,
          hdrop', List.drop_left]
      · exact fun q hq => hb q (by simp [hq])
      · omega

theorem expectedHistory_length (fmt : Nat → String) (ts dur : Nat) :
    ∀ (bs : List (List Nat)) (i : Nat),
      (expectedHistory fmt ts dur i bs).length = bs.length := by
  intro bs
  induction bs with
  | nil => intro i; rw [expectedHistory]; rfl
  | cons b bs ih =>
    intro i
    rw [expectedHistory]
    simp only [List.length_cons, ih]

theorem expectedHistory_getD (fmt : Nat → String) (ts dur : Nat) :
    ∀ (bs : List (List Nat)) (i j : Nat), j < bs.length →
      ((expectedHistory fmt ts dur i bs).getD j default).dataType = "data" ∧
      ((expectedHistory fmt ts dur i bs).getD j default).timestamp =
        ts + dur * (i + j) := by
  intro bs
  induction bs with
  | nil => intro i j hj; simp at hj
  | cons b bs ih =>
    intro i j hj
    rw [expectedHistory]
    cases j with
    | zero => exact ⟨rfl, by simp⟩
    | succ j =>
      simp only [List.getD_cons_succ]
      have := ih (i + 1) j (by simpa using hj)
      refine ⟨this.1, ?_⟩
      rw [this.2]
      ring_nf

/-- C5: A history sub-record (tag 0x03) with 4-byte little-endian start
timestamp `T`, 2-byte little-endian duration `d` and `n` complete 6-byte TH
blocks decodes to exactly the expected reading list: `n` readings whose
timestamps are `T, T+d, …, T+(n-1)d` in order, each with
`dataType = "data"`. -/
theorem history_block_readings (fmt : Nat → String)
    (pid t0 t1 t2 t3 d0 d1 : Nat) (blocks : List (List Nat))
    (hb : ∀ b ∈ blocks, b.length = 6) :
    decode_history_data fmt
        (t0 :: t1 :: t2 :: t3 :: d0 :: d1 :: blocks.flatten) pid =
      expectedHistory fmt (bytes_to_int_little_endian [t0, t1, t2, t3])
        (bytes_to_int_little_endian [d0, d1]) 0 blocks ∧
    (decode_history_data fmt
        (t0 :: t1 :: t2 :: t3 :: d0 :: d1 :: blocks.flatten) pid).length =
      blocks.length ∧
    (∀ i < blocks.length,
      ((decode_history_data fmt
          (t0 :: t1 :: t2 :: t3 :: d0 :: d1 :: blocks.flatten) pid).getD i
            default).dataType = "data" ∧
      ((decode_history_data fmt
          (t0 :: t1 :: t2 :: t3 :: d0 :: d1 :: blocks.flatten) pid).getD i
            default).timestamp =
        bytes_to_int_little_endian [t0, t1, t2, t3] +
          bytes_to_int_little_endian [d0, d1] * i) := by
  have hmain : decode_history_data fmt
      (t0 :: t1 :: t2 :: t3 :: d0 :: d1 :: blocks.flatten) pid =
      expectedHistory fmt (bytes_to_int_little_endian [t0, t1, t2, t3])
        (bytes_to_int_little_endian [d0, d1]) 0 blocks := by
    rw [decode_history_data, if_neg (by simp)]
    have ht : (t0 :: t1 :: t2 :: t3 :: d0 :: d1 :: blocks.flatten).take 4 =
        [t0, t1, t2, t3] := rfl
    have hd : ((t0 :: t1 :: t2 :: t3 :: d0 :: d1 :: blocks.flatten).drop 4).take 2 =
        [d0, d1] := rfl
    rw [ht, hd]
    apply historyWalk_blocks
    · rfl
    · exact hb
    · omega
  refine ⟨hmain, ?_, ?_⟩
  · rw [hmain, expectedHistory_length]
  · intro i hi
    rw [hmain]
    have := expectedHistory_getD fmt
      (bytes_to_int_little_endian [t0, t1, t2, t3])
      (bytes_to_int_little_endian [d0, d1]) blocks 0 i hi
    refine ⟨this.1, ?_⟩
    rw [this.2]
    ring_nf

/-- Witness for C5: start timestamp 100, duration 60, three 6-byte blocks —
three readings whose last has timestamp `100 + 60 * 2 = 220` and
`dataType = "data"`. -/
theorem history_block_readings_witness :
    (decode_history_data (fun _ => "")
        (100 :: 0 :: 0 :: 0 :: 60 :: 0 ::
          [[136, 246, 1, 16, 39, 88], [136, 246, 1, 16, 39, 87],
           [136, 246, 1, 16, 39, 86]].flatten) 0).length = 3 ∧
    ((decode_history_data (fun _ => "")
        (100 :: 0 :: 0 :: 0 :: 60 :: 0 ::
          [[136, 246, 1, 16, 39, 88], [136, 246, 1, 16, 39, 87],
           [136, 246, 1, 16, 39, 86]].flatten) 0).getD 2
          default).timestamp =
      bytes_to_int_little_endian [100, 0, 0, 0] +
        bytes_to_int_little_endian [60, 0] * 2 := by
  have hb : ∀ b ∈ [[136, 246, 1, 16, 39, 88], [136, 246, 1, 16, 39, 87],
      [136, 246, 1, 16, 39, 86]], b.length = (6 : Nat) := by decide
  constructor
  · exact (history_block_readings (fun _ => "") 0 100 0 0 0 60 0 _ hb).2.1
  · exact ((history_block_readings (fun _ => "") 0 100 0 0 0 60 0 _ hb).2.2 2
      (by norm_num)).2

theorem decodeStep_signalStrength (fmt : Nat → String)
    (utf8 : List Nat → Option String) (pid : Nat) (s : DecodeState)
    (sp : SubPack) :
    (decodeStep fmt utf8 pid s sp).out.signalStrength =
      if sp.key = 0x65 ∧ 1 ≤ sp.payload.length then
        some ((bytes_to_int_little_endian sp.payload : Int))
      else s.out.signalStrength := by
  rw [decodeStep]
  by_cases h : sp.key = 0x65
  · rw [if_neg (by simp [h]), if_neg (by simp [h]), if_neg (by omega),
      if_neg (by simp [h]), if_neg (by omega), if_neg (by simp [h]),
      if_neg (by omega), if_neg (by simp [h]), if_neg (by omega),
      if_neg (by simp [h]), if_neg (by omega), if_pos h]
    by_cases hl : 1 ≤ sp.payload.length
    · rw [if_pos hl, if_pos ⟨h, hl⟩]
    · rw [if_neg hl, if_neg (by tauto)]
  · rw [if_neg (show ¬(sp.key = 0x65 ∧ 1 ≤ sp.payload.length) from
      fun hc => h hc.1)]
    by_cases h14 : sp.key = 0x14
    · rw [if_pos h14]
      cases decode_realtime_data fmt sp.payload pid <;> rfl
    rw [if_neg h14]
    by_cases h03 : sp.key = 0x03
    · rw [if_pos h03]
      simp only []
      split <;> rfl
    rw [if_neg h03]
    by_cases h11 : sp.key = 0x11
    · rw [if_pos h11]
      cases utf8 sp.payload <;> rfl
    rw [if_neg h11]
    by_cases h34 : sp.key = 0x34
    · rw [if_pos h34]
      cases utf8 sp.payload <;> rfl
    rw [if_neg h34]
    by_cases h35 : sp.key = 0x35
    · rw [if_pos h35]
      cases utf8 sp.payload <;> rfl
    rw [if_neg h35]
    by_cases h04 : sp.key = 0x04
    · rw [if_pos h04]
      split <;> rfl
    rw [if_neg h04]
    by_cases h05 : sp.key = 0x05
    · rw [if_pos h05]
      split <;> rfl
    rw [if_neg h05]
    by_cases h85 : sp.key = 0x85
    · rw [if_pos h85]
      cases decode_sensor_data_v2 sp.payload <;> rfl
    rw [if_neg h85]
    by_cases h1d : sp.key = 0x1d
    · rw [if_pos h1d]
      split <;> rfl
    rw [if_neg h1d]
    by_cases h64 : sp.key = 0x64
    · rw [if_pos h64]
      split <;> rfl
    rw [if_neg h64]
    by_cases h09 : sp.key = 0x09
    · rw [if_pos h09]
      split <;> rfl
    rw [if_neg h09, if_neg h]
    by_cases h2c : sp.key = 0x2c
    · rw [if_pos h2c]
      split <;> rfl
    rw [if_neg h2c]
    by_cases h61 : sp.key = 0x61
    · rw [if_pos h61]
      split <;> rfl
    rw [if_neg h61]

theorem fold_signalStrength_nochange (fmt : Nat → String)
    (utf8 : List Nat → Option String) (pid : Nat) :
    ∀ (l : List SubPack) (s : DecodeState),
      (∀ q ∈ l, q.key = 0x65 → q.payload.length = 0) →
      (l.foldl (decodeStep fmt utf8 pid) s).out.signalStrength =
        s.out.signalStrength := by
  intro l
  induction l with
  | nil => intro s _; rfl
  | cons q l ih =>
    intro s hq
    rw [List.foldl_cons, ih _ (fun p hp => hq p (by simp [hp])),
      decodeStep_signalStrength, if_neg]
    rintro ⟨hk, hl⟩
    have := hq q (by simp) hk
    omega

theorem finalize_signalStrength (F : DecodeState) :
    (if 0 < F.dataList.length then
        { F.out with sensorData := some (F.dataList.map SensorDatum.v2) }
      else F.out).signalStrength = F.out.signalStrength := by
  split <;> rfl

/-- Counterexample to C1: the frame `CG 50 [len 4] 65 01 00 9C` carries the
signal-strength sub-record (tag 0x65) with the single byte `0x9C` (156), yet
`tlv_decode` reports `signalStrength = 156`, not `156 - 256 = -100`: the
decoder applies no sign adjustment at tag 0x65. -/
theorem signal_strength_not_adjusted_counterexample :
    (tlv_decode (fun _ => "") (fun _ => none)
        [67, 71, 80, 4, 0, 101, 1, 0, 156]).signalStrength = some 156 ∧
    some (156 : Int) ≠ some (-100 : Int) := by
  constructor
  · decide
  · decide

/-- C1 (amended): the decoder's `signalStrength` output is the raw unsigned
little-endian value of the last non-empty tag-0x65 sub-record's payload; for
a one-byte value `v` it reports `v` itself, with no sign adjustment (the
`v ≥ 128 ⇒ v - 256` rule belongs to the realtime `rssi` byte and to the
display layer, not to `tlv_decode`); in particular byte `0x9C` yields 156. -/
theorem signal_strength_raw_value (fmt : Nat → String)
    (utf8 : List Nat → Option String) (frame : List Nat)
    (l₁ l₂ : List SubPack) (sp : SubPack) (v : Nat)
    (hcg : frame.take 2 = [67, 71])
    (hsplit : (tlv_unpack frame).subPackList = l₁ ++ sp :: l₂)
    (hkey : sp.key = 0x65) (hpay : sp.payload = [v])
    (hlast : ∀ q ∈ l₂, q.key = 0x65 → q.payload.length = 0) :
    (tlv_decode fmt utf8 frame).signalStrength = some (v : Int) := by
  have hlen2 : 2 ≤ frame.length := by
    have := congrArg List.length hcg
    simp only [List.length_take, List.length_cons, List.length_nil] at this
    omega
  rw [tlv_decode, if_neg (by push_neg; exact ⟨by omega, hcg⟩)]
  simp only []
  rw [finalize_signalStrength]
  simp only [hsplit, List.foldl_append, List.foldl_cons]
  rw [fold_signalStrength_nochange fmt utf8 _ l₂ _ hlast,
    decodeStep_signalStrength,
    if_pos (show sp.key = 0x65 ∧ 1 ≤ sp.payload.length from
      ⟨hkey, by rw [hpay]; simp⟩),
    hpay, bytes_to_int_singleton]

/-- Witness for the amended C1 at the concrete frame of the counterexample:
the one-byte tag-0x65 value `0x9C` decodes to raw 156. -/
theorem signal_strength_raw_value_witness :
    (tlv_decode (fun _ => "") (fun _ => none)
        [67, 71, 80, 4, 0, 101, 1, 0, 156]).signalStrength = some (156 : Int) :=
  signal_strength_raw_value (fun _ => "") (fun _ => none)
    [67, 71, 80, 4, 0, 101, 1, 0, 156] [] [] ⟨101, 1, [156]⟩ 156 (by decide)
    (by decide) rfl rfl (by simp)

theorem decodeStep_dataList (fmt : Nat → String)
    (utf8 : List Nat → Option String) (pid : Nat) (s : DecodeState)
    (sp : SubPack) :
    (decodeStep fmt utf8 pid s sp).dataList =
      s.dataList ++ (if sp.key = 0x85 then
        (decode_sensor_data_v2 sp.payload).toList else []) := by
  rw [decodeStep]
  by_cases h85 : sp.key = 0x85
  · rw [if_pos h85, if_neg (by simp [h85]), if_neg (by omega),
      if_neg (by simp [h85]), if_neg (by omega), if_neg (by simp [h85]),
      if_neg (by omega), if_neg (by simp [h85]), if_pos h85]
    cases hd : decode_sensor_data_v2 sp.payload <;> simp
  · rw [if_neg h85, if_neg h85, List.append_nil]
    by_cases h14 : sp.key = 0x14
    · rw [if_pos h14]
      cases decode_realtime_data fmt sp.payload pid <;> rfl
    rw [if_neg h14]
    by_cases h03 : sp.key = 0x03
    · rw [if_pos h03]
      simp only []
      split <;> rfl
    rw [if_neg h03]
    by_cases h11 : sp.key = 0x11
    · rw [if_pos h11]
      cases utf8 sp.payload <;> rfl
    rw [if_neg h11]
    by_cases h34 : sp.key = 0x34
    · rw [if_pos h34]
      cases utf8 sp.payload <;> rfl
    rw [if_neg h34]
    by_cases h35 : sp.key = 0x35
    · rw [if_pos h35]
      cases utf8 sp.payload <;> rfl
    rw [if_neg h35]
    by_cases h04 : sp.key = 0x04
    · rw [if_pos h04]
      split <;> rfl
    rw [if_neg h04]
    by_cases h05 : sp.key = 0x05
    · rw [if_pos h05]
      split <;> rfl
    rw [if_neg h05]
    by_cases h1d : sp.key = 0x1d
    · rw [if_pos h1d]
      split <;> rfl
    rw [if_neg h1d]
    by_cases h64 : sp.key = 0x64
    · rw [if_pos h64]
      split <;> rfl
    rw [if_neg h64]
    by_cases h09 : sp.key = 0x09
    · rw [if_pos h09]
      split <;> rfl
    rw [if_neg h09]
    by_cases h65 : sp.key = 0x65
    · rw [if_pos h65]
      split <;> rfl
    rw [if_neg h65]
    by_cases h2c : sp.key = 0x2c
    · rw [if_pos h2c]
      split <;> rfl
    rw [if_neg h2c]
    by_cases h61 : sp.key = 0x61
    · rw [if_pos h61]
      split <;> rfl
    rw [if_neg h61]

theorem fold_dataList (fmt : Nat → String) (utf8 : List Nat → Option String)
    (pid : Nat) :
    ∀ (l : List SubPack) (s : DecodeState),
      (l.foldl (decodeStep fmt utf8 pid) s).dataList =
        s.dataList ++ l.filterMap (fun sp =>
          if sp.key = 0x85 then decode_sensor_data_v2 sp.payload else none) := by
  intro l
  induction l with
  | nil => intro s; simp
  | cons sp l ih =>
    intro s
    rw [List.foldl_cons, ih, decodeStep_dataList, List.filterMap_cons]
    by_cases h85 : sp.key = 0x85
    · cases hd : decode_sensor_data_v2 sp.payload with
      | none => simp [h85, hd]
      | some sd => simp [h85, hd]
    · simp [h85]

theorem decode_sensor_data_v2_isSome (v : List Nat) (h : 5 ≤ v.length) :
    ∃ sd, decode_sensor_data_v2 v = some sd := by
  rw [decode_sensor_data_v2, if_neg (by omega)]
  simp only []
  split_ifs <;> exact ⟨_, rfl⟩

/-- C9: In every frame whose payload contains both a versioned composite
sensor block (tag 0x85, at least 5 bytes so it decodes at all) and a realtime
(tag 0x14) or history (tag 0x03) sub-record — in either payload order — the
final `sensorData` holds the list built from the tag-0x85 blocks: the
versioned blocks take precedence because `data_list` is assigned after the
dispatch loop. -/
theorem sensor_v2_takes_precedence (fmt : Nat → String)
    (utf8 : List Nat → Option String) (frame : List Nat)
    (hcg : frame.take 2 = [67, 71])
    (h85 : ∃ sp ∈ (tlv_unpack frame).subPackList,
      sp.key = 0x85 ∧ 5 ≤ sp.payload.length)
    (_hrt : ∃ sp ∈ (tlv_unpack frame).subPackList,
      sp.key = 0x14 ∨ sp.key = 0x03) :
    (tlv_decode fmt utf8 frame).sensorData =
      some (((tlv_unpack frame).subPackList.filterMap (fun sp =>
        if sp.key = 0x85 then decode_sensor_data_v2 sp.payload else
          none)).map SensorDatum.v2) := by
  have hlen2 : 2 ≤ frame.length := by
    have := congrArg List.length hcg
    simp only [List.length_take, List.length_cons, List.length_nil] at this
    omega
  rw [tlv_decode, if_neg (by push_neg; exact ⟨by omega, hcg⟩)]
  simp only []
  have hDL := fold_dataList fmt utf8 (tlv_unpack frame).productId
    (tlv_unpack frame).subPackList
    { out := { productId := some (tlv_unpack frame).productId }, dataList := [] }
  simp only [List.nil_append] at hDL
  obtain ⟨sp, hmem, hk, h5⟩ := h85
  obtain ⟨sd, hsd⟩ := decode_sensor_data_v2_isSome sp.payload h5
  have hmemf : sd ∈ (tlv_unpack frame).subPackList.filterMap (fun sp =>
      if sp.key = 0x85 then decode_sensor_data_v2 sp.payload else none) :=
    List.mem_filterMap.mpr ⟨sp, hmem, by rw [if_pos hk]; exact hsd⟩
  have hpos : 0 < (((tlv_unpack frame).subPackList).foldl
      (decodeStep fmt utf8 (tlv_unpack frame).productId)
      { out := { productId := some (tlv_unpack frame).productId },
        dataList := [] }).dataList.length := by
    rw [hDL]
    exact List.length_pos.mpr (List.ne_nil_of_mem hmemf)
  rw [if_pos hpos]
  show some _ = _
  rw [hDL]

/-- Witness for C9: a frame holding an (empty) history record and a tag-0x85
record; `sensorData` comes from the versioned block. -/
theorem sensor_v2_takes_precedence_witness :
    (tlv_decode (fun _ => "") (fun _ => none)
        [67, 71, 8, 17, 0, 3, 6, 0, 100, 0, 0, 0, 60, 0,
         133, 5, 0, 1, 0, 0, 0, 99]).sensorData =
      some (((tlv_unpack [67, 71, 8, 17, 0, 3, 6, 0, 100, 0, 0, 0, 60, 0,
          133, 5, 0, 1, 0, 0, 0, 99]).subPackList.filterMap (fun sp =>
        if sp.key = 0x85 then decode_sensor_data_v2 sp.payload else
          none)).map SensorDatum.v2) :=
  sensor_v2_takes_precedence (fun _ => "") (fun _ => none)
    [67, 71, 8, 17, 0, 3, 6, 0, 100, 0, 0, 0, 60, 0,
     133, 5, 0, 1, 0, 0, 0, 99] (by decide)
    ⟨⟨133, 5, [1, 0, 0, 0, 99]⟩, by decide, by decide, by decide⟩
    ⟨⟨3, 6, [100, 0, 0, 0, 60, 0]⟩, by decide, by decide⟩

end Qingping
